import Mathlib

/-!
Shallow embedding of the `functions` package core: the Result outcome
algebra, the exception model of `src/packages/functions/src/errors/index.ts`
(with its types in `errors/types.ts`), the argument-validator adapter
`parseArgs`, and the check combinators the spec describes.  TypeScript
objects are embedded as Lean inductive values; optional fields become
`Option`; JavaScript array spreads become list appends.
-/

namespace Functions

/-- The tagged success-or-failure outcome (`Result<T,E>`): exactly one of
`Success{value}` or `Failure{error}`, per `docs/plans/types/result.md`. -/
inductive Result (T E : Type) : Type where
  | success (value : T)
  | failure (error : E)

/-- `isSuccess()` of a Result. -/
def Result.isSuccess {T E : Type} : Result T E → Bool
  | .success _ => true
  | .failure _ => false

/-- `isError()` of a Result. -/
def Result.isError {T E : Type} : Result T E → Bool
  | .success _ => false
  | .failure _ => true

/-- The `Exception` value of `errors/types.ts`: name, optional namespace /
code / message, optional cause, a stack of ancestor exceptions and a list
of note strings.  The three methods (`from`, `is`, `addNote`) close over the
construction config; since every field they read is recoverable from the
built value, they are embedded below as functions on this value. -/
inductive Exception : Type where
  | mk (name : String) (nspace : Option String) (code : Option String)
       (message : Option String) (cause : Option Exception)
       (stack : List Exception) (notes : List String) : Exception

/-- Field `name` of an Exception. -/
def Exception.name : Exception → String
  | .mk n _ _ _ _ _ _ => n

/-- Field `namespace` of an Exception (`namespace` is a Lean keyword, so the
embedding calls it `nspace`). -/
def Exception.nspace : Exception → Option String
  | .mk _ ns _ _ _ _ _ => ns

/-- Field `code` of an Exception. -/
def Exception.code : Exception → Option String
  | .mk _ _ c _ _ _ _ => c

/-- Field `message` of an Exception. -/
def Exception.message : Exception → Option String
  | .mk _ _ _ m _ _ _ => m

/-- Field `cause` of an Exception. -/
def Exception.cause : Exception → Option Exception
  | .mk _ _ _ _ c _ _ => c

/-- Field `stack` of an Exception. -/
def Exception.stack : Exception → List Exception
  | .mk _ _ _ _ _ s _ => s

/-- Field `notes` of an Exception. -/
def Exception.notes : Exception → List String
  | .mk _ _ _ _ _ _ n => n

/-- `ExceptionConfig` of `errors/types.ts`: every field but `name` is
optional; `stack` and `notes` are optional lists the builder defaults. -/
structure ExceptionConfig : Type where
  name : String
  nspace : Option String := none
  code : Option String := none
  message : Option String := none
  cause : Option Exception := none
  stack : Option (List Exception) := none
  notes : Option (List String) := none

/-- `exception(config)` of `errors/index.ts`: builds the value with
`stack: config.stack ?? []`, `cause: config.cause`,
`notes: config.notes ?? []` and the remaining fields spread from config. -/
def exception (config : ExceptionConfig) : Exception :=
  .mk config.name config.nspace config.code config.message config.cause
    (config.stack.getD []) (config.notes.getD [])

/-- `from(cause)` of `errors/index.ts` (`from` is a Lean keyword, so the
embedding calls it `fromCause`): `exception({...config, cause,
stack: [...base.stack, cause]})`.  The spread keeps name, namespace, code,
message and notes of the receiver (`base.notes = config.notes ?? []`, and
the rebuilt value defaults the spread `notes` the same way, so the notes
field carries over unchanged). -/
def Exception.fromCause (e : Exception) (cause : Exception) : Exception :=
  exception { name := e.name, nspace := e.nspace, code := e.code,
              message := e.message, cause := some cause,
              stack := some (e.stack ++ [cause]), notes := some e.notes }

/-- `is(other)` of `errors/index.ts`:
`other.name === config.name && (config.namespace ? other.namespace ===
config.namespace : true)` where `config` is the RECEIVER's config.  A
JavaScript string is truthy exactly when it is defined and non-empty, so a
receiver namespace of `""` takes the `true` branch. -/
def Exception.is (e other : Exception) : Bool :=
  decide (other.name = e.name) &&
    (match e.nspace with
     | some ns => if ns = "" then true else decide (other.nspace = some ns)
     | none => true)

/-- `addNote(note)` of `errors/index.ts`: `exception({...config,
notes: [...base.notes, note]})`.  The spread keeps every other field; the
spread `stack` is `config.stack`, and `config.stack ?? [] = base.stack`, so
the stack carries over unchanged. -/
def Exception.addNote (e : Exception) (note : String) : Exception :=
  exception { name := e.name, nspace := e.nspace, code := e.code,
              message := e.message, cause := e.cause,
              stack := some e.stack, notes := some (e.notes ++ [note]) }

/-- Severity levels of `ExceptionSpaceConfig` in `errors/types.ts`. -/
inductive Severity : Type where
  | info
  | warning
  | error
  | critical
deriving DecidableEq

/-- `ExceptionSpaceConfig` of `errors/types.ts`. -/
structure ExceptionSpaceConfig : Type where
  name : String
  severity : Severity

/-- `Omit<ExceptionConfig, "namespace">`: the config `define` accepts. -/
structure DefineConfig : Type where
  name : String
  code : Option String := none
  message : Option String := none
  cause : Option Exception := none
  stack : Option (List Exception) := none
  notes : Option (List String) := none

/-- The record `exceptionSpace` returns: `{ define, severity, name }`. -/
structure ExceptionSpace : Type where
  define : DefineConfig → Exception
  severity : Severity
  name : String

/-- `exceptionSpace(space)` of `errors/index.ts`: `define` builds
`exception({...config, namespace: space.name})`; `severity` and `name` are
the space's own. -/
def exceptionSpace (space : ExceptionSpaceConfig) : ExceptionSpace where
  define := fun config =>
    exception { name := config.name, nspace := some space.name,
                code := config.code, message := config.message,
                cause := config.cause, stack := config.stack,
                notes := config.notes }
  severity := space.severity
  name := space.name

/-- `raise(exception)` of `errors/index.ts`: returns its argument. -/
def raise (e : Exception) : Exception := e

/-- The `[Exception, ...Exception[]]` parameter type of `group`: a head
element followed by a possibly empty tail. -/
structure NonEmptyArray (α : Type) : Type where
  head : α
  tail : List α

/-- The elements of a NonEmptyArray, in order. -/
def NonEmptyArray.toList {α : Type} (a : NonEmptyArray α) : List α :=
  a.head :: a.tail

/-- `ExceptionGroup` of `errors/types.ts`. -/
structure ExceptionGroup : Type where
  name : String
  exceptions : NonEmptyArray Exception

/-- `group(name, exceptions)` of `errors/index.ts`: packs name and the
non-empty exception list into an ExceptionGroup. -/
def group (name : String) (exceptions : NonEmptyArray Exception) : ExceptionGroup :=
  { name := name, exceptions := exceptions }

end Functions

namespace Functions

/-- C1: `from(cause)` sets `cause`, appends the cause to the stack (the
length grows by one), and chaining two `from` calls appends both causes
oldest first. -/
theorem C1_from_appends_cause (e c1 c2 : Exception) :
    (e.fromCause c1).cause = some c1 ∧
    (e.fromCause c1).stack = e.stack ++ [c1] ∧
    (e.fromCause c1).stack.length = e.stack.length + 1 ∧
    ((e.fromCause c1).fromCause c2).stack = e.stack ++ [c1, c2] := by
  refine ⟨rfl, rfl, by simp [Exception.fromCause, exception, Exception.stack], ?_⟩
  show (e.stack ++ [c1]) ++ [c2] = e.stack ++ [c1, c2]
  simp

/-- C8: `addNote(note)` appends the note to `notes` and leaves name,
namespace, code, message, cause and stack unchanged. -/
theorem C8_addNote_appends_note (e : Exception) (n : String) :
    (e.addNote n).notes = e.notes ++ [n] ∧
    (e.addNote n).name = e.name ∧
    (e.addNote n).nspace = e.nspace ∧
    (e.addNote n).code = e.code ∧
    (e.addNote n).message = e.message ∧
    (e.addNote n).cause = e.cause ∧
    (e.addNote n).stack = e.stack :=
  ⟨rfl, rfl, rfl, rfl, rfl, rfl, rfl⟩

/-- C9: kind identity is stable under derivation: wrapping by `from` or by
`addNote` does not change what `is` answers, for every comparand. -/
theorem C9_is_stable_under_derivation (e c x : Exception) (n : String) :
    (e.fromCause c).is x = e.is x ∧ (e.addNote n).is x = e.is x :=
  ⟨rfl, rfl⟩

/-- C10: `raise` is the identity on Exceptions: it returns its argument
itself, unwrapped and unchanged. -/
theorem C10_raise_is_identity (e : Exception) : raise e = e := rfl

/-- The matching rule exactly as claim C2 words it, for comparison with the
code's `is`: the COMPARAND's namespace, when present, must also match, and
a comparand without a namespace matches any namespace. -/
def isClaimC2 (e other : Exception) : Bool :=
  decide (other.name = e.name) &&
    (match other.nspace with
     | some ns => decide (e.nspace = some ns)
     | none => true)

/-- A receiver carrying a namespace. -/
def exC2receiver : Exception :=
  exception { name := "E", nspace := some "ns1" }

/-- A comparand of the same name carrying no namespace. -/
def exC2comparand : Exception :=
  exception { name := "E" }

/-- C2 counterexample: the names match and the comparand has no namespace,
so the claim says `is` answers true; the code's `is` conditions on the
RECEIVER's namespace and answers false, because the comparand's namespace
(`undefined`) differs from the receiver's `"ns1"`. -/
theorem C2_counterexample :
    exC2receiver.is exC2comparand = false ∧
    isClaimC2 exC2receiver exC2comparand = true ∧
    exC2comparand.name = exC2receiver.name ∧
    exC2comparand.nspace = none := by
  refine ⟨?_, rfl, rfl, rfl⟩
  decide

/-- C2 amended: `e.is(o)` answers true iff the names match and, when the
RECEIVER `e` carries a non-empty namespace, the comparand's namespace
equals it; a receiver without a namespace (or with the empty-string
namespace, which JavaScript treats as falsy) matches any comparand. -/
theorem C2_is_matches_receiver_namespace (e other : Exception) :
    e.is other = true ↔
      (other.name = e.name ∧
        ∀ ns, e.nspace = some ns → ns ≠ "" → other.nspace = some ns) := by
  unfold Exception.is
  rcases h : e.nspace with _ | ns
  · simp
  · by_cases hns : ns = "" <;> simp [hns]

/-- C2 amended, instantiated: a matching name with matching namespaces
answers true, through the amended theorem at a concrete input. -/
theorem C2_is_matches_receiver_namespace_witness :
    Exception.is (exception { name := "E", nspace := some "ns1" })
      (exception { name := "E", nspace := some "ns1" }) = true := by
  rw [C2_is_matches_receiver_namespace]
  exact ⟨rfl, fun ns h _ => h ▸ rfl⟩

/-- What zod's `safeParse` reports back to `parseArgs`: the typed data on
success, or an error object of which `parseArgs` reads only `.message`
(the spec treats the validator as opaque: input either matches the schema
structurally or yields a diagnostic message). -/
inductive SafeParseReturn (α : Type) : Type where
  | success (data : α)
  | failure (message : String)

/-- Whether a safeParse outcome is the success case. -/
def SafeParseReturn.isSuccess {α : Type} : SafeParseReturn α → Bool
  | .success _ => true
  | .failure _ => false

/-- A zod schema, seen through the only operation `parseArgs` uses:
`safeParse` over untyped input of type `I`. -/
structure ZodType (I α : Type) : Type where
  safeParse : I → SafeParseReturn α

/-- `parseArgs(schema, input)` of the validator adapter: run
`schema.safeParse(input)`; if it did not succeed, return
`failure(exception({ name: "ValidatedArgsError", message:
parsed.error.message }))`; else return `success(parsed.data)`. -/
def parseArgs {I α : Type} (schema : ZodType I α) (input : I) :
    Result α Exception :=
  match schema.safeParse input with
  | .failure msg =>
      .failure (exception { name := "ValidatedArgsError", message := some msg })
  | .success d => .success d

/-- C3: `parseArgs` succeeds with the typed value exactly when the
validator accepts the input, and on failure returns the Exception named
"ValidatedArgsError" carrying the validator's diagnostic text and no
namespace. -/
theorem C3_parseArgs_adapter (I α : Type) (S : ZodType I α) (i : I) :
    ((parseArgs S i).isSuccess = (S.safeParse i).isSuccess) ∧
    (∀ v, S.safeParse i = .success v → parseArgs S i = .success v) ∧
    (∀ m, S.safeParse i = .failure m →
      parseArgs S i =
        .failure (exception { name := "ValidatedArgsError", message := some m })) ∧
    (∀ ex, parseArgs S i = .failure ex →
      ex.name = "ValidatedArgsError" ∧ ex.nspace = none ∧
      ∃ m, S.safeParse i = .failure m ∧ ex.message = some m) := by
  unfold parseArgs
  rcases h : S.safeParse i with d | msg
  · exact ⟨rfl, fun v hv => by rw [show d = v from by injection hv], fun m hm => by
      exact absurd hm (by simp), fun ex hex => by exact absurd hex (by simp)⟩
  · refine ⟨rfl, fun v hv => by exact absurd hv (by simp), fun m hm => ?_, fun ex hex => ?_⟩
    · rw [show msg = m from by injection hm]
    · have : ex = exception { name := "ValidatedArgsError", message := some msg } := by
        injection hex with h1
        exact h1.symm
      subst this
      exact ⟨rfl, rfl, msg, rfl, rfl⟩

/-- A concrete schema accepting positive naturals, rejecting the rest with
a fixed diagnostic. -/
def posSchema : ZodType Nat Nat where
  safeParse := fun n => if 0 < n then .success n else .failure "expected positive"

/-- C3 instantiated: on the concrete schema, input 3 parses to success 3
and input 0 fails with the "ValidatedArgsError" exception carrying the
diagnostic, through the adapter theorem with its implications discharged at
these inputs. -/
theorem C3_parseArgs_adapter_witness :
    parseArgs posSchema 3 = .success 3 ∧
    parseArgs posSchema 0 =
      .failure (exception { name := "ValidatedArgsError",
                            message := some "expected positive" }) :=
  ⟨(C3_parseArgs_adapter Nat Nat posSchema 3).2.1 3 rfl,
   (C3_parseArgs_adapter Nat Nat posSchema 0).2.2.1 "expected positive" rfl⟩

/-- C7: an Exception built through a space's `define` carries the space's
name as its namespace (and the config's own name); the space exposes the
declared severity and name; and no other operation stamps a namespace:
`exception` on a namespace-free config leaves it absent, and `from` /
`addNote` carry the receiver's namespace over unchanged. -/
theorem C7_exceptionSpace_stamps_namespace (space : ExceptionSpaceConfig)
    (cfg : DefineConfig) :
    ((exceptionSpace space).define cfg).nspace = some space.name ∧
    ((exceptionSpace space).define cfg).name = cfg.name ∧
    (exceptionSpace space).severity = space.severity ∧
    (exceptionSpace space).name = space.name ∧
    (∀ c : ExceptionConfig, c.nspace = none → (exception c).nspace = none) ∧
    (∀ e c : Exception, (e.fromCause c).nspace = e.nspace) ∧
    (∀ (e : Exception) (n : String), (e.addNote n).nspace = e.nspace) :=
  ⟨rfl, rfl, rfl, rfl, fun _c h => h, fun _ _ => rfl, fun _ _ => rfl⟩

/-- A concrete space and define-config. -/
def authSpace : ExceptionSpaceConfig :=
  { name := "auth", severity := Severity.critical }

/-- C7 instantiated at a concrete space: `define` stamps the namespace
"auth", and `exception` on a namespace-free config stamps none, through the
space theorem with its inner hypothesis discharged concretely. -/
theorem C7_exceptionSpace_stamps_namespace_witness :
    ((exceptionSpace authSpace).define { name := "Denied" }).nspace = some "auth" ∧
    (exception { name := "Denied" }).nspace = none :=
  ⟨(C7_exceptionSpace_stamps_namespace authSpace { name := "Denied" }).1,
   (C7_exceptionSpace_stamps_namespace authSpace { name := "Denied" }).2.2.2.2.1
     { name := "Denied" } rfl⟩

/-- One allocated Exception object on the JavaScript heap: the fields of
`errors/types.ts`, with `cause` and `stack` held as references (indices
into the allocation store below), so that mutation of a published object
would be observable as a store write. -/
structure ExceptionData : Type where
  name : String
  nspace : Option String
  code : Option String
  message : Option String
  cause : Option Nat
  stack : List Nat
  notes : List String
deriving DecidableEq

/-- The heap of allocated Exception objects, in allocation order: the
source's `exception(config)` builds a fresh object literal, so every
construction appends one slot; nothing in `errors/index.ts` assigns to a
field of an existing object. -/
abbrev Store : Type := List ExceptionData

/-- Allocate a fresh object: the new reference is the prior store length. -/
def alloc (s : Store) (d : ExceptionData) : Store × Nat :=
  (s ++ [d], s.length)

/-- `from(cause)` at the heap level: read the receiver's slot and allocate
the object `exception({...config, cause, stack: [...base.stack, cause]})`
builds; the receiver's slot is only read.  (A dangling reference leaves
the store unchanged; the theorems take a valid one.) -/
def fromCauseAlloc (s : Store) (e c : Nat) : Store × Nat :=
  match s[e]? with
  | some d => alloc s { d with cause := some c, stack := d.stack ++ [c] }
  | none => (s, e)

/-- `addNote(note)` at the heap level: read the receiver's slot and
allocate the object `exception({...config, notes: [...base.notes, note]})`
builds; the receiver's slot is only read. -/
def addNoteAlloc (s : Store) (e : Nat) (note : String) : Store × Nat :=
  match s[e]? with
  | some d => alloc s { d with notes := d.notes ++ [note] }
  | none => (s, e)

/-- C6: neither `addNote` nor `from` mutates its receiver: every object
allocated before the call - the receiver's notes, stack and all other
fields included - reads back exactly as before, and each derivation yields
a fresh reference (the prior store length, hence not any existing
object). -/
theorem C6_derivation_never_mutates (s : Store) (e c : Nat) (n : String)
    (h : e < s.length) :
    (∀ j, j < s.length → (addNoteAlloc s e n).1[j]? = s[j]?) ∧
    (addNoteAlloc s e n).2 = s.length ∧
    (∀ j, j < s.length → (fromCauseAlloc s e c).1[j]? = s[j]?) ∧
    (fromCauseAlloc s e c).2 = s.length := by
  obtain ⟨d, hd⟩ : ∃ d, s[e]? = some d := ⟨s[e], List.getElem?_eq_getElem h⟩
  unfold addNoteAlloc fromCauseAlloc
  rw [hd]
  exact ⟨fun j hj => List.getElem?_append_left hj, rfl,
         fun j hj => List.getElem?_append_left hj, rfl⟩

/-- A concrete allocated exception object. -/
def exDataW : ExceptionData :=
  { name := "E", nspace := none, code := none, message := none,
    cause := none, stack := [], notes := ["first"] }

/-- C6 instantiated on a one-object store: slot 0 reads back unchanged
after `addNote`, and `from` hands out the fresh reference 1, through the
frame theorem with its bound discharged concretely. -/
theorem C6_derivation_never_mutates_witness :
    (addNoteAlloc [exDataW] 0 "second").1[0]? = some exDataW ∧
    (fromCauseAlloc [exDataW] 0 0).2 = 1 := by
  have h := C6_derivation_never_mutates [exDataW] 0 0 "second" (by decide)
  exact ⟨(h.1 0 (by decide)).trans rfl, h.2.2.2⟩

/-- Modelled from the spec: the repository's `checkAll` / `checkAny`
combinators are not among the staged source files - only the spec's
section 4.5 describes them.  A member Check is embedded, for one fixed
(context, args) pair, as an identifier together with the Result its
handler produces when invoked; evaluation appends the identifier of each
invoked check to a log, so "this check's handler was never invoked" is
"its identifier never entered the log". -/
structure Check : Type where
  id : Nat
  result : Result Unit Exception

/-- Modelled from the spec: `checkAll(checks)` - AND, fail-fast: evaluate
the checks strictly in the given order, one at a time; on the first
failure stop and return that failure unchanged; if every check succeeds
return a single `success(unit)`. -/
def checkAll (checks : List Check) (log : List Nat) :
    List Nat × Result Unit Exception :=
  match checks with
  | [] => (log, .success ())
  | c :: rest =>
    match c.result with
    | .failure err => (log ++ [c.id], .failure err)
    | .success _ => checkAll rest (log ++ [c.id])

/-- Modelled from the spec: the configuration Exception `checkAny` fails
with when given zero checks. -/
def emptyCheckSetError : Exception :=
  exception { name := "EmptyCheckSetError" }

/-- The failure channel of `checkAny`: either the single configuration
Exception (zero checks), or the group of every branch's failure.  The spec
says the group is "wrapped as a single Exception" without fixing the
wrapping's shape, so the embedding keeps the two apart in a sum. -/
abbrev CheckAnyFailure : Type := Sum Exception ExceptionGroup

/-- Modelled from the spec: the tail of a `checkAny` evaluation after its
first check failed with `first`: a later success is returned immediately
with no further invocation; when every check has failed, fail with
`group("checkAny", allFailures)`, the failures in evaluation order. -/
def checkAnyGo (first : Exception) (checks : List Check) (log : List Nat)
    (acc : List Exception) : List Nat × Result Unit CheckAnyFailure :=
  match checks with
  | [] => (log, .failure (Sum.inr (group "checkAny" ⟨first, acc⟩)))
  | c :: rest =>
    match c.result with
    | .success u => (log ++ [c.id], .success u)
    | .failure err => checkAnyGo first rest (log ++ [c.id]) (acc ++ [err])

/-- Modelled from the spec: `checkAny(checks)` - OR, succeed-fast:
requires at least one check (zero checks fail with the configuration
Exception `EmptyCheckSetError` before anything runs); evaluate strictly in
order, return the first success immediately, and when every check fails
group all collected failures in evaluation order. -/
def checkAny (checks : List Check) (log : List Nat) :
    List Nat × Result Unit CheckAnyFailure :=
  match checks with
  | [] => (log, .failure (Sum.inl emptyCheckSetError))
  | c :: rest =>
    match c.result with
    | .success u => (log ++ [c.id], .success u)
    | .failure err => checkAnyGo err rest (log ++ [c.id]) []

/-- With every check succeeding, `checkAll` invokes each one, in the given
order, and returns `success(unit)`. -/
theorem checkAll_all_succeed (checks : List Check) (log : List Nat)
    (h : ∀ c ∈ checks, c.result.isSuccess = true) :
    checkAll checks log = (log ++ checks.map Check.id, .success ()) := by
  induction checks generalizing log with
  | nil => simp [checkAll]
  | cons c rest ih =>
    have hc : c.result = .success () := by
      have hm := h c (List.mem_cons_self c rest)
      cases hr : c.result with
      | success u => cases u; rfl
      | failure e => rw [hr] at hm; simp [Result.isSuccess] at hm
    simp only [checkAll, hc]
    rw [ih (log ++ [c.id]) (fun x hx => h x (List.mem_cons_of_mem c hx))]
    simp

/-- With every check before `f` succeeding and `f` failing, `checkAll`
invokes exactly the checks up to and including `f`, in order, and returns
`f`'s failure unchanged. -/
theorem checkAll_first_failure (pre post : List Check) (f : Check)
    (err : Exception) (log : List Nat)
    (hpre : ∀ c ∈ pre, c.result.isSuccess = true)
    (hf : f.result = .failure err) :
    checkAll (pre ++ f :: post) log =
      (log ++ (pre.map Check.id ++ [f.id]), .failure err) := by
  induction pre generalizing log with
  | nil => simp [checkAll, hf]
  | cons c rest ih =>
    have hc : c.result = .success () := by
      have hm := hpre c (List.mem_cons_self c rest)
      cases hr : c.result with
      | success u => cases u; rfl
      | failure e => rw [hr] at hm; simp [Result.isSuccess] at hm
    simp only [List.cons_append, checkAll, hc, List.append_eq]
    rw [ih (log ++ [c.id]) (fun x hx => hpre x (List.mem_cons_of_mem c hx))]
    simp

/-- C4: `checkAll` evaluates its member checks strictly in the given order
one at a time: on the first failure it stops, returns that failure
unchanged, and invokes no later check (the invocation log records exactly
the identifiers up to and including the failing check); with every check
succeeding it invokes each in order and returns a single `success(unit)`. -/
theorem C4_checkAll_fail_fast (pre post checks : List Check) (f : Check)
    (err : Exception) (log : List Nat)
    (hpre : ∀ c ∈ pre, c.result.isSuccess = true)
    (hf : f.result = .failure err)
    (hall : ∀ c ∈ checks, c.result.isSuccess = true) :
    checkAll (pre ++ f :: post) log =
      (log ++ (pre.map Check.id ++ [f.id]), .failure err) ∧
    checkAll checks log = (log ++ checks.map Check.id, .success ()) :=
  ⟨checkAll_first_failure pre post f err log hpre hf,
   checkAll_all_succeed checks log hall⟩

/-- A denial from a first alternative. -/
def exA : Exception := exception { name := "DeniedA" }

/-- A denial from a second alternative. -/
def exB : Exception := exception { name := "DeniedB" }

/-- A succeeding check with identifier 1. -/
def okCheck1 : Check := { id := 1, result := .success () }

/-- A succeeding check with identifier 2. -/
def okCheck2 : Check := { id := 2, result := .success () }

/-- A failing check with identifier 3. -/
def failCheckA : Check := { id := 3, result := .failure exA }

/-- A failing check with identifier 4. -/
def failCheckB : Check := { id := 4, result := .failure exB }

/-- C4 instantiated: with check 3 failing between 1 and 2, only 1 and 3 are
invoked and 3's failure comes back unchanged; with 1 and 2 both
succeeding, both run in order and the result is `success(unit)`; through
the combinator theorem with its hypotheses discharged concretely. -/
theorem C4_checkAll_fail_fast_witness :
    checkAll [okCheck1, failCheckA, okCheck2] [] = ([1, 3], .failure exA) ∧
    checkAll [okCheck1, okCheck2] [] = ([1, 2], .success ()) := by
  have h := C4_checkAll_fail_fast [okCheck1] [okCheck2] [okCheck1, okCheck2]
    failCheckA exA []
    (by intro c hc
        simp only [List.mem_singleton] at hc
        subst hc
        rfl)
    rfl
    (by intro c hc
        simp only [List.mem_cons, List.mem_singleton, List.not_mem_nil, or_false] at hc
        rcases hc with rfl | rfl <;> rfl)
  exact ⟨h.1, h.2⟩

/-- Once one alternative failed, with every following check up to `s`
failing too and `s` succeeding, the tail evaluation invokes exactly the
checks up to and including `s`, in order, and returns `s`'s success. -/
theorem checkAnyGo_first_success (first : Exception) (pre post : List Check)
    (s : Check) (log : List Nat) (acc : List Exception)
    (hpre : ∀ c ∈ pre, c.result.isError = true)
    (hs : s.result = .success ()) :
    checkAnyGo first (pre ++ s :: post) log acc =
      (log ++ (pre.map Check.id ++ [s.id]), .success ()) := by
  induction pre generalizing log acc with
  | nil => simp [checkAnyGo, hs]
  | cons c rest ih =>
    obtain ⟨e, he⟩ : ∃ e, c.result = .failure e := by
      have hm := hpre c (List.mem_cons_self c rest)
      cases hr : c.result with
      | success u => rw [hr] at hm; simp [Result.isError] at hm
      | failure e => exact ⟨e, rfl⟩
    simp only [List.cons_append, checkAnyGo, he, List.append_eq]
    rw [ih (log ++ [c.id]) (acc ++ [e]) (fun x hx => hpre x (List.mem_cons_of_mem c hx))]
    simp

/-- Once one alternative failed, with every remaining check failing too,
the tail evaluation invokes them all in order and fails with the group of
all collected failures, in evaluation order. -/
theorem checkAnyGo_all_fail (first : Exception) (crest : List Check)
    (erest : List Exception) (log : List Nat) (acc : List Exception)
    (h : crest.map Check.result = erest.map Result.failure) :
    checkAnyGo first crest log acc =
      (log ++ crest.map Check.id,
        .failure (Sum.inr (group "checkAny" ⟨first, acc ++ erest⟩))) := by
  induction crest generalizing erest log acc with
  | nil =>
    have herest : erest = [] := by
      cases erest with
      | nil => rfl
      | cons x xs => simp at h
    subst herest
    simp [checkAnyGo]
  | cons c cs ih =>
    cases erest with
    | nil => simp at h
    | cons e es =>
      simp only [List.map_cons, List.cons.injEq] at h
      obtain ⟨hc, hcs⟩ := h
      simp only [List.map_cons, checkAnyGo, hc]
      rw [ih es (log ++ [c.id]) (acc ++ [e]) hcs]
      simp

/-- C5: `checkAny` evaluates strictly in order and returns the first
success immediately, never invoking a later check (the log records exactly
the identifiers up to and including the succeeding check); with every
check failing it fails with `group("checkAny", allFailures)` holding each
branch's error in evaluation order; and with zero checks it fails with the
`EmptyCheckSetError` configuration Exception. -/
theorem C5_checkAny_succeed_fast (pre post : List Check) (s c0 : Check)
    (crest : List Check) (e0 : Exception) (erest : List Exception)
    (log : List Nat)
    (hpre : ∀ c ∈ pre, c.result.isError = true)
    (hs : s.result = .success ())
    (hfail : (c0 :: crest).map Check.result = (e0 :: erest).map Result.failure) :
    checkAny (pre ++ s :: post) log =
      (log ++ (pre.map Check.id ++ [s.id]), .success ()) ∧
    checkAny (c0 :: crest) log =
      (log ++ (c0 :: crest).map Check.id,
        .failure (Sum.inr (group "checkAny" ⟨e0, erest⟩))) ∧
    checkAny [] log = (log, .failure (Sum.inl emptyCheckSetError)) ∧
    emptyCheckSetError.name = "EmptyCheckSetError" := by
  refine ⟨?_, ?_, rfl, rfl⟩
  · cases pre with
    | nil => simp [checkAny, hs]
    | cons c rest =>
      obtain ⟨e, he⟩ : ∃ e, c.result = .failure e := by
        have hm := hpre c (List.mem_cons_self c rest)
        cases hr : c.result with
        | success u => rw [hr] at hm; simp [Result.isError] at hm
        | failure e => exact ⟨e, rfl⟩
      simp only [List.cons_append, checkAny, he]
      rw [checkAnyGo_first_success e rest post s (log ++ [c.id]) []
        (fun x hx => hpre x (List.mem_cons_of_mem c hx)) hs]
      simp
  · simp only [List.map_cons, List.cons.injEq] at hfail
    obtain ⟨h0, hrest⟩ := hfail
    simp only [checkAny, h0, List.map_cons]
    rw [checkAnyGo_all_fail e0 crest erest (log ++ [c0.id]) [] hrest]
    simp

/-- C5 instantiated: with check 3 failing and check 1 succeeding, 4 is
never invoked and the success comes back; with 3 and 4 both failing, the
failure groups [exA, exB] in that order under "checkAny"; and zero checks
fail with `EmptyCheckSetError`; through the combinator theorem with its
hypotheses discharged concretely. -/
theorem C5_checkAny_succeed_fast_witness :
    checkAny [failCheckA, okCheck1, failCheckB] [] = ([3, 1], .success ()) ∧
    checkAny [failCheckA, failCheckB] [] =
      ([3, 4], .failure (Sum.inr (group "checkAny" ⟨exA, [exB]⟩))) ∧
    checkAny [] [] = ([], .failure (Sum.inl emptyCheckSetError)) := by
  have h := C5_checkAny_succeed_fast [failCheckA] [failCheckB] okCheck1
    failCheckA [failCheckB] exA [exB] []
    (by intro c hc
        simp only [List.mem_singleton] at hc
        subst hc
        rfl)
    rfl
    rfl
  exact ⟨h.1, h.2.1, h.2.2.1⟩

end Functions
